import Mathlib

/-!
Verification development for the spatial domain explorer core:
the Domain Tree Store (immutable-update hierarchical tree), the
Layout Engine (iterative positional relaxation) and the Gesture
Controller (pointer-event state machine).

The numeric code runs on IEEE doubles; it is embedded here with exact
real arithmetic (the standard idealization).  The two trigonometric
compositions in the source, cos (atan2 dy dx) and sin (atan2 dy dx),
are translated by the exact identities dx / dist and dy / dist, valid
whenever dist = sqrt (dx*dx + dy*dy) > 0, which the guarding branch
ensures.
-/

namespace Hyle

/-- A 2-D point, used for cached node positions, pointer coordinates and
pan offsets. -/
structure Pt where
  x : ℝ
  y : ℝ

/-- Modelled from the spec: the Domain node of the data model (the
`Domain` interface lives in `types.ts`, which is not among the staged
source files).  Per spec section 3 a node carries a stable `id`, a display
`name`, `children` that are either unresolved (`none`) or a materialized
ordered list, an optional cached 2-D `position`, and a provenance tag
`source`. -/
inductive Domain where
  | mk (id : String) (name : String) (children : Option (List Domain))
      (source : Option String) (position : Option Pt)

/-- The `id` field. -/
def Domain.id : Domain → String
  | .mk i _ _ _ _ => i

/-- The `name` field. -/
def Domain.name : Domain → String
  | .mk _ n _ _ _ => n

/-- The `children` field: `none` is the unresolved sentinel. -/
def Domain.children : Domain → Option (List Domain)
  | .mk _ _ c _ _ => c

/-- The `source` field. -/
def Domain.source : Domain → Option String
  | .mk _ _ _ s _ => s

/-- The `position` field. -/
def Domain.position : Domain → Option Pt
  | .mk _ _ _ _ p => p

/-- Functional update of the `children` field (the pure counterpart of the
source's `currentNode.children = ...` assignment on the cloned tree). -/
def Domain.withChildren : Domain → Option (List Domain) → Domain
  | .mk i n _ s p, c => .mk i n c s p

/-- Functional update of the `position` field (the pure counterpart of the
source's object spread with a `position` override). -/
def Domain.withPosition : Domain → Option Pt → Domain
  | .mk i n c s _, p => .mk i n c s p

/-- Source `findNodeByPath` walks a sequence of names from the root; each step
requires an exact name match among the current node's materialized
children, and fails when the children are unresolved or the name is
absent. -/
def findNodeByPath (root : Domain) : List String → Option Domain
  | [] => some root
  | nm :: rest =>
    match root.children with
    | none => none
    | some cs =>
      match cs.find? (fun c => c.name == nm) with
      | none => none
      | some c => findNodeByPath c rest

/-- Source `cloneDomainTree` produces a deep copy of a tree: ids, names, sources
verbatim, the position object rebuilt field by field, children cloned
recursively (`null` children stay `null`). -/
def cloneDomainTree : Domain → Domain
  | .mk i n none src pos => .mk i n none src (pos.map (fun p => Pt.mk p.x p.y))
  | .mk i n (some l) src pos =>
    .mk i n (some (l.attach.map (fun c => cloneDomainTree c.1))) src
      (pos.map (fun p => Pt.mk p.x p.y))
termination_by d => sizeOf d
decreasing_by
  cases c with
  | mk c hc =>
    have h1 : sizeOf c < sizeOf l := List.sizeOf_lt_of_mem hc
    simp only [Domain.mk.sizeOf_spec, Option.some.sizeOf_spec]
    omega

/-- The map from existing-child id to existing child that the source builds
with `new Map(children.map(c => [c.id, c]))`: a later entry with the same
id overwrites an earlier one, so lookup yields the last match. -/
def idLookupLast (cs : List Domain) (i : String) : Option Domain :=
  cs.foldl (fun acc c => if c.id == i then some c else acc) none

/-- The child-merging step of `updateNodeByPath`: the node's children are
set to `newChildren`, except that a new child whose id matches an existing
child that has a cached position gets that position carried over. -/
def mergeChildren (oldChildren : Option (List Domain)) (newChildren : List Domain) :
    List Domain :=
  newChildren.map fun nc =>
    match idLookupLast (oldChildren.getD []) nc.id with
    | some ex =>
      match ex.position with
      | some p => nc.withPosition (some p)
      | none => nc
    | none => nc

/-- Replace the first child whose name matches by the given node — the pure
counterpart of mutating the node that the source's walk found with
`children.find`. -/
def replaceFirst : List Domain → String → Domain → List Domain
  | [], _, _ => []
  | c :: cs, nm, c' => if c.name == nm then c' :: cs else c :: replaceFirst cs nm c'

/-- The walk-and-update of `updateNodeByPath` on the cloned tree: follow
the path by first name match; at the target, set the children to the merged
new children; `none` when a step has unresolved children or a missing
name. -/
def updateAlong (d : Domain) : List String → List Domain → Option Domain
  | [], nc => some (d.withChildren (some (mergeChildren d.children nc)))
  | nm :: rest, nc =>
    match d.children with
    | none => none
    | some cs =>
      match cs.find? (fun c => c.name == nm) with
      | none => none
      | some c =>
        (updateAlong c rest nc).map fun c' => d.withChildren (some (replaceFirst cs nm c'))

/-- Source `updateNodeByPath`: clone the root, walk the path, and replace the
target's children (with position carry-over); if the path does not resolve,
return the clone unchanged. -/
def updateNodeByPath (root : Domain) (path : List String) (newChildren : List Domain) :
    Domain :=
  let newRoot := cloneDomainTree root
  (updateAlong newRoot path newChildren).getD newRoot

/-- The JS `toLowerCase()` used for case-insensitive name comparison,
modelled character by character (the names involved are ASCII). -/
def toLowerCase (s : String) : String := String.mk (s.data.map Char.toLower)

/-- The load-more merge in `handleLoadMore`: drop the candidate names whose
lowercase form is already among the existing children's lowercase names,
and append the remainder, in order, as unresolved-children ai nodes. -/
def appendUniqueChildren (existing : List Domain) (newNames : List String) : List Domain :=
  let existingSet := existing.map (fun c => toLowerCase c.name)
  let uniqueNew := newNames.filter (fun n => !(existingSet.contains (toLowerCase n)))
  existing ++ uniqueNew.map (fun n => Domain.mk n n none (some "ai") none)

/-- Rebuilding a position point field by field yields the same point. -/
theorem posClone_eq (pos : Option Pt) : pos.map (fun p => Pt.mk p.x p.y) = pos := by
  cases pos with
  | none => rfl
  | some p => cases p; rfl

/-- Cloning a tree is value-preserving: the clone has the same value as the
original at every node. -/
theorem cloneDomainTree_eq : (d : Domain) → cloneDomainTree d = d
  | .mk i n none src pos => by
    rw [cloneDomainTree, posClone_eq]
  | .mk i n (some l) src pos => by
    rw [cloneDomainTree, posClone_eq]
    have hcs : l.attach.map (fun c => cloneDomainTree c.1) = l := by
      calc l.attach.map (fun c => cloneDomainTree c.1)
          = l.attach.map (fun c => c.1) := by
            apply List.map_congr_left
            intro a _
            exact cloneDomainTree_eq a.1
        _ = l := List.attach_map_subtype_val l
    rw [hcs]
termination_by d => sizeOf d
decreasing_by
  have h1 : sizeOf a.1 < sizeOf l := List.sizeOf_lt_of_mem a.2
  simp only [Domain.mk.sizeOf_spec, Option.some.sizeOf_spec]
  omega

@[simp]
theorem name_withChildren (d : Domain) (c : Option (List Domain)) :
    (d.withChildren c).name = d.name := by
  cases d; rfl

@[simp]
theorem children_withChildren (d : Domain) (c : Option (List Domain)) :
    (d.withChildren c).children = c := by
  cases d; rfl

@[simp]
theorem id_withPosition (d : Domain) (p : Option Pt) : (d.withPosition p).id = d.id := by
  cases d; rfl

@[simp]
theorem position_withPosition (d : Domain) (p : Option Pt) :
    (d.withPosition p).position = p := by
  cases d; rfl

/-- A tree-walking update keeps the root node's name. -/
theorem updateAlong_name {d r : Domain} {p : List String} {nc : List Domain}
    (h : updateAlong d p nc = some r) : r.name = d.name := by
  cases p with
  | nil =>
    simp only [updateAlong, Option.some.injEq] at h
    rw [← h, name_withChildren]
  | cons nm rest =>
    cases hc : d.children with
    | none => simp only [updateAlong, hc] at h; cases h
    | some cs =>
      cases hf : cs.find? (fun c => c.name == nm) with
      | none => simp only [updateAlong, hc, hf] at h; cases h
      | some c =>
        cases hrec : updateAlong c rest nc with
        | none => simp only [updateAlong, hc, hf, hrec, Option.map_none'] at h; cases h
        | some r' =>
          simp only [updateAlong, hc, hf, hrec, Option.map_some', Option.some.injEq] at h
          rw [← h, name_withChildren]

/-- When path resolution fails, the walk-and-update fails too. -/
theorem updateAlong_none {d : Domain} {p : List String} (nc : List Domain)
    (h : findNodeByPath d p = none) : updateAlong d p nc = none := by
  induction p generalizing d with
  | nil => simp [findNodeByPath] at h
  | cons nm rest ih =>
    cases hc : d.children with
    | none => simp only [updateAlong, hc]
    | some cs =>
      cases hf : cs.find? (fun c => c.name == nm) with
      | none => simp only [updateAlong, hc, hf]
      | some c =>
        simp only [findNodeByPath, hc, hf] at h
        simp only [updateAlong, hc, hf, ih h, Option.map_none']

/-- Replacing the first name match keeps it the first name match: searching
the updated sibling list finds the replacement. -/
theorem replaceFirst_find? {cs : List Domain} {nm : String} {c r' : Domain}
    (hf : cs.find? (fun x => x.name == nm) = some c) (hr : (r'.name == nm) = true) :
    (replaceFirst cs nm r').find? (fun x => x.name == nm) = some r' := by
  induction cs with
  | nil => cases hf
  | cons a l ih =>
    cases ha : (a.name == nm) with
    | true =>
      simp only [replaceFirst, ha, if_true]
      simp [List.find?, hr]
    | false =>
      simp only [replaceFirst, ha, Bool.false_eq_true, if_false]
      rw [List.find?_cons_of_neg _ (by simp [ha])] at hf
      rw [List.find?_cons_of_neg _ (by simp [ha])]
      exact ih hf

/-- When the path resolves to a node `t`, the walk-and-update succeeds and
the same path in the updated tree resolves to `t` with its children set to
the merged new children. -/
theorem updateAlong_some {d t : Domain} {p : List String} (nc : List Domain)
    (h : findNodeByPath d p = some t) :
    ∃ r, updateAlong d p nc = some r ∧
      findNodeByPath r p = some (t.withChildren (some (mergeChildren t.children nc))) := by
  induction p generalizing d with
  | nil =>
    simp only [findNodeByPath, Option.some.injEq] at h
    subst h
    exact ⟨_, rfl, by simp [findNodeByPath]⟩
  | cons nm rest ih =>
    cases hc : d.children with
    | none => simp only [findNodeByPath, hc] at h; cases h
    | some cs =>
      cases hf : cs.find? (fun c => c.name == nm) with
      | none => simp only [findNodeByPath, hc, hf] at h; cases h
      | some c =>
        simp only [findNodeByPath, hc, hf] at h
        obtain ⟨r', hr', hfind⟩ := ih h
        refine ⟨d.withChildren (some (replaceFirst cs nm r')), ?_, ?_⟩
        · simp [updateAlong, hc, hf, hr']
        · have hcname : (c.name == nm) = true := by
            have hx := List.find?_some hf
            simpa using hx
          have hrname : r'.name = c.name := updateAlong_name hr'
          simp only [findNodeByPath, children_withChildren]
          rw [replaceFirst_find? hf (by rw [hrname]; exact hcname)]
          exact hfind

/-- A fold that records the last id match returns its accumulator when no
element matches. -/
theorem idLookupLast_go_no_match {l : List Domain} {i : String}
    (h : ∀ c ∈ l, c.id ≠ i) (acc : Option Domain) :
    l.foldl (fun acc c => if c.id == i then some c else acc) acc = acc := by
  induction l generalizing acc with
  | nil => rfl
  | cons a l ih =>
    have ha : (a.id == i) = false := by
      simp only [beq_eq_false_iff_ne, ne_eq]
      exact h a (List.mem_cons_self a l)
    simp only [List.foldl_cons, ha, Bool.false_eq_true, if_false]
    exact ih (fun c hc => h c (List.mem_cons_of_mem a hc)) acc

/-- With pairwise-distinct sibling ids, looking up a member's id finds that
member. -/
theorem idLookupLast_unique {cs : List Domain}
    (hnd : cs.Pairwise (fun a b => a.id ≠ b.id)) {ex : Domain} (hex : ex ∈ cs) :
    idLookupLast cs ex.id = some ex := by
  induction cs with
  | nil => cases hex
  | cons a l ih =>
    rcases List.mem_cons.mp hex with rfl | hmem
    · unfold idLookupLast
      simp only [List.foldl_cons, beq_self_eq_true, if_true]
      exact idLookupLast_go_no_match
        (fun c hc => fun he => (List.pairwise_cons.mp hnd).1 c hc he.symm) (some ex)
    · have hne : (a.id == ex.id) = false := by
        simp only [beq_eq_false_iff_ne, ne_eq]
        exact (List.pairwise_cons.mp hnd).1 ex hmem
      unfold idLookupLast
      simp only [List.foldl_cons, hne, Bool.false_eq_true, if_false]
      exact ih (List.pairwise_cons.mp hnd).2 hmem

/-- The last-match fold either returns a member carrying the looked-up id
or its accumulator. -/
theorem idLookupLast_go_mem {i : String} {l : List Domain} :
    ∀ {acc : Option Domain} {ex : Domain},
      l.foldl (fun acc c => if c.id == i then some c else acc) acc = some ex →
      (ex ∈ l ∧ ex.id = i) ∨ acc = some ex := by
  induction l with
  | nil => exact fun h => Or.inr h
  | cons a l ih =>
    intro acc ex h
    simp only [List.foldl_cons] at h
    rcases ih h with ⟨hm, hi⟩ | hg
    · exact Or.inl ⟨List.mem_cons_of_mem a hm, hi⟩
    · by_cases ha : (a.id == i) = true
      · rw [if_pos ha] at hg
        injection hg with hae
        subst hae
        exact Or.inl ⟨List.mem_cons_self a l, beq_iff_eq.mp ha⟩
      · rw [if_neg ha] at hg
        exact Or.inr hg

/-- A successful id lookup returns a member carrying the looked-up id. -/
theorem idLookupLast_mem {cs : List Domain} {i : String} {ex : Domain}
    (h : idLookupLast cs i = some ex) : ex ∈ cs ∧ ex.id = i := by
  rcases idLookupLast_go_mem h with hg | hg
  · exact hg
  · cases hg

/-- C7: when the path does not resolve (a step's name is absent or a node's
children are unresolved), `replaceChildrenAtPath` (`updateNodeByPath`)
returns the cloned root unchanged: the result is structurally equal to the
input tree, and no node's children are replaced — the update aborts
atomically. -/
theorem updateNodeByPath_unresolved_path (root : Domain) (path : List String)
    (newChildren : List Domain) (h : findNodeByPath root path = none) :
    updateNodeByPath root path newChildren = root := by
  unfold updateNodeByPath
  rw [cloneDomainTree_eq]
  show (updateAlong root path newChildren).getD root = root
  rw [updateAlong_none newChildren h]
  rfl

theorem updateNodeByPath_unresolved_path_witness :
    findNodeByPath (Domain.mk "root" "SparkSphere" (some []) none none) ["Art"] = none ∧
    updateNodeByPath (Domain.mk "root" "SparkSphere" (some []) none none) ["Art"]
        [Domain.mk "N" "N" none none none] =
      Domain.mk "root" "SparkSphere" (some []) none none :=
  ⟨rfl, updateNodeByPath_unresolved_path _ _ _ rfl⟩

/-- C4: in the tree returned by `updateNodeByPath`, a new child whose id
matches an existing child of the node at the path (sibling ids being
pairwise distinct, the spec's sibling-uniqueness invariant) that carries a
cached position keeps that cached position, while a new child with no
position-bearing match keeps its own node unchanged (so a possibly absent
position of its own). -/
theorem updateNodeByPath_keeps_positions (root t : Domain) (path : List String)
    (newChildren : List Domain)
    (hfind : findNodeByPath root path = some t)
    (huniq : (t.children.getD []).Pairwise (fun a b => a.id ≠ b.id)) :
    ∃ t', findNodeByPath (updateNodeByPath root path newChildren) path = some t' ∧
      ∃ cs', t'.children = some cs' ∧ cs'.length = newChildren.length ∧
        ∀ i (hi : i < newChildren.length) (hi' : i < cs'.length),
          (∀ ex ∈ t.children.getD [], ∀ p : Pt, ex.id = newChildren[i].id →
            ex.position = some p →
            cs'[i] = newChildren[i].withPosition (some p)) ∧
          ((∀ ex ∈ t.children.getD [], ex.id = newChildren[i].id →
              ex.position = none) →
            cs'[i] = newChildren[i]) := by
  obtain ⟨r, hr, hfr⟩ := updateAlong_some newChildren hfind
  have hupd : updateNodeByPath root path newChildren = r := by
    unfold updateNodeByPath
    rw [cloneDomainTree_eq]
    show (updateAlong root path newChildren).getD root = r
    rw [hr]
    rfl
  refine ⟨t.withChildren (some (mergeChildren t.children newChildren)),
    by rw [hupd]; exact hfr,
    mergeChildren t.children newChildren, by simp, by simp [mergeChildren], ?_⟩
  intro i hi hi'
  constructor
  · intro ex hex p hid hpos
    have hlk : idLookupLast (t.children.getD []) newChildren[i].id = some ex := by
      rw [← hid]
      exact idLookupLast_unique huniq hex
    simp only [mergeChildren, List.getElem_map]
    simp only [hlk, hpos]
  · intro hnone
    cases hlk : idLookupLast (t.children.getD []) newChildren[i].id with
    | none =>
      simp only [mergeChildren, List.getElem_map]
      simp only [hlk]
    | some ex =>
      obtain ⟨hm, hi2⟩ := idLookupLast_mem hlk
      have hp := hnone ex hm hi2
      simp only [mergeChildren, List.getElem_map]
      simp only [hlk, hp]

/-- A materialized child with a cached position at (10, 10). -/
def nodeA : Domain := Domain.mk "A" "A" none none (some (Pt.mk 10 10))

/-- A child with no cached position yet. -/
def nodeB : Domain := Domain.mk "B" "B" none none none

/-- A root whose children are `nodeA` and `nodeB`. -/
def rootAB : Domain := Domain.mk "root" "Root" (some [nodeA, nodeB]) none none

theorem updateNodeByPath_keeps_positions_witness :
    findNodeByPath rootAB [] = some rootAB ∧
    (rootAB.children.getD []).Pairwise (fun a b => a.id ≠ b.id) ∧
    (∃ t', findNodeByPath
        (updateNodeByPath rootAB []
          [Domain.mk "A" "A" none none none, Domain.mk "B" "B" none none none,
            Domain.mk "C" "C" none none none]) [] = some t' ∧
      ∃ cs', t'.children = some cs' ∧
        cs'.length = [Domain.mk "A" "A" none none none, Domain.mk "B" "B" none none none,
            Domain.mk "C" "C" none none none].length ∧
        ∀ i (hi : i < [Domain.mk "A" "A" none none none,
            Domain.mk "B" "B" none none none,
            Domain.mk "C" "C" none none none].length) (hi' : i < cs'.length),
          (∀ ex ∈ rootAB.children.getD [], ∀ p : Pt,
            ex.id = [Domain.mk "A" "A" none none none,
                Domain.mk "B" "B" none none none,
                Domain.mk "C" "C" none none none][i].id →
            ex.position = some p →
            cs'[i] = [Domain.mk "A" "A" none none none,
                Domain.mk "B" "B" none none none,
                Domain.mk "C" "C" none none none][i].withPosition (some p)) ∧
          ((∀ ex ∈ rootAB.children.getD [],
              ex.id = [Domain.mk "A" "A" none none none,
                  Domain.mk "B" "B" none none none,
                  Domain.mk "C" "C" none none none][i].id →
              ex.position = none) →
            cs'[i] = [Domain.mk "A" "A" none none none,
                Domain.mk "B" "B" none none none,
                Domain.mk "C" "C" none none none][i])) :=
  ⟨rfl, by decide,
    updateNodeByPath_keeps_positions rootAB rootAB [] _ rfl (by decide)⟩

/-- C8: the load-more append keeps every existing child and appends exactly
the candidate names not already present among the existing children under
case-insensitive comparison, in candidate order, as new unresolved-children
ai nodes; in particular appending [art, Music] to children containing Art
adds only a node for Music. -/
theorem appendUniqueChildren_spec :
    (∀ (existing : List Domain) (newNames : List String),
      appendUniqueChildren existing newNames =
        existing ++
          (newNames.filter
              (fun n => decide (∀ c ∈ existing, toLowerCase c.name ≠ toLowerCase n))).map
            (fun n => Domain.mk n n none (some "ai") none)) ∧
    appendUniqueChildren [Domain.mk "Art" "Art" none none (some (Pt.mk 1 2))]
        ["art", "Music"] =
      [Domain.mk "Art" "Art" none none (some (Pt.mk 1 2)),
        Domain.mk "Music" "Music" none (some "ai") none] := by
  constructor
  · intro existing newNames
    unfold appendUniqueChildren
    simp only []
    congr 2
    apply List.filter_congr
    intro n _
    by_cases h : toLowerCase n ∈ existing.map (fun c => toLowerCase c.name)
    · have hc : ((existing.map (fun c => toLowerCase c.name)).contains (toLowerCase n)) =
          true := by
        simpa using h
      rw [hc]
      obtain ⟨c, hcm, hceq⟩ := List.mem_map.mp h
      simp only [Bool.not_true]
      symm
      rw [decide_eq_false_iff_not]
      intro hall
      exact hall c hcm hceq
    · have hc : ((existing.map (fun c => toLowerCase c.name)).contains (toLowerCase n)) =
          false := by
        simpa using h
      rw [hc]
      simp only [Bool.not_false]
      symm
      rw [decide_eq_true_eq]
      intro c hcm hceq
      exact h (List.mem_map.mpr ⟨c, hcm, hceq⟩)
  · rfl

/-- A pointer event as the handlers read it: pointer id, client coordinates
and the device-type string. -/
structure PEvent where
  pointerId : ℕ
  clientX : ℝ
  clientY : ℝ
  pointerType : String

/-- The gesture controller's state: the refs and React state that the
pan/pinch/tap handlers read and write. -/
structure GestureState where
  activePointers : List (ℕ × Pt)
  isDragging : Bool
  lastPanPosition : Pt
  dragStartPos : Pt
  startDragTime : ℝ
  lastPointerType : String
  initialPinchDistance : Option ℝ
  initialZoomLevel : ℝ
  pan : Pt
  zoomLevel : ℝ
  isPinchEnabled : Bool

/-- Source `Map.set`: update the entry in place when the key is present (keeping
insertion order), append it otherwise. -/
def mapSet : List (ℕ × Pt) → ℕ → Pt → List (ℕ × Pt)
  | [], i, p => [(i, p)]
  | (j, q) :: rest, i, p =>
    if j = i then (i, p) :: rest else (j, q) :: mapSet rest i p

/-- Source `Map.delete`: drop the entry with the given key. -/
def mapDelete (l : List (ℕ × Pt)) (i : ℕ) : List (ℕ × Pt) :=
  l.filter (fun q => q.1 != i)

/-- Source `Map.has`. -/
def mapHas (l : List (ℕ × Pt)) (i : ℕ) : Bool :=
  l.any (fun q => q.1 == i)

/-- Source `getDistance`: Euclidean distance between two points. -/
noncomputable def getDistance (p1 p2 : Pt) : ℝ :=
  Real.sqrt ((p2.x - p1.x) ^ 2 + (p2.y - p1.y) ^ 2)

/-- The distance between the first two tracked pointers, in insertion
order — what `Array.from(values())` exposes to the pinch code. -/
noncomputable def pairDistance : List (ℕ × Pt) → ℝ
  | (_, p1) :: (_, p2) :: _ => getDistance p1 p2
  | _ => 0

/-- Source `onPointerDown`: register the pointer; a second pointer with pinch
enabled captures the initial inter-pointer distance and the current zoom
and suspends panning; a first pointer resets the drag bookkeeping. -/
noncomputable def onPointerDown (s : GestureState) (e : PEvent) (now : ℝ) : GestureState :=
  let pt : Pt := ⟨e.clientX, e.clientY⟩
  let ap := mapSet s.activePointers e.pointerId pt
  let s1 := {s with activePointers := ap}
  if ap.length = 2 ∧ s1.isPinchEnabled = true then
    {s1 with
      initialPinchDistance := some (pairDistance ap),
      initialZoomLevel := s1.zoomLevel, isDragging := false}
  else if ap.length = 1 then
    {s1 with
      isDragging := false, lastPanPosition := pt, dragStartPos := pt,
      startDragTime := now, lastPointerType := e.pointerType}
  else s1

/-- The single-pointer part of `onPointerMove`: nothing unless exactly one
pointer is active; a mouse commits to drag on first move, a touch pointer
only past the 10-unit threshold from the down position; once committed the
incremental delta is added to the pan and the last position advances. -/
noncomputable def singleMove (s1 : GestureState) (pt : Pt) (ptype : String) : GestureState :=
  if s1.activePointers.length ≠ 1 then s1
  else
    let committed : Option GestureState :=
      if s1.isDragging = true then some s1
      else if ptype = "mouse" then some {s1 with isDragging := true}
      else if getDistance s1.dragStartPos pt > 10 then some {s1 with isDragging := true}
      else none
    match committed with
    | none => s1
    | some s3 =>
      {s3 with
        pan := ⟨s3.pan.x + (pt.x - s3.lastPanPosition.x),
          s3.pan.y + (pt.y - s3.lastPanPosition.y)⟩,
        lastPanPosition := pt}

/-- Source `onPointerMove`: ignore untracked pointers; with two pointers, pinch
enabled and a truthy initial distance (`null` and `0` are both falsy in
the source), rescale the zoom captured at pinch start by the distance
ratio, clamped to [0.6, 2.5], leaving the pan alone; otherwise fall through
to single-pointer tracking. -/
noncomputable def onPointerMove (s : GestureState) (e : PEvent) : GestureState :=
  if mapHas s.activePointers e.pointerId = true then
    let pt : Pt := ⟨e.clientX, e.clientY⟩
    let ap := mapSet s.activePointers e.pointerId pt
    let s1 := {s with activePointers := ap}
    match ap, s1.initialPinchDistance with
    | (_, p1) :: (_, p2) :: [], some d0 =>
      if s1.isPinchEnabled = true ∧ d0 ≠ 0 then
        {s1 with
          zoomLevel := min (max (s1.initialZoomLevel * (getDistance p1 p2 / d0)) 0.6) 2.5}
      else singleMove s1 pt e.pointerType
    | _, _ => singleMove s1 pt e.pointerType
  else s

/-- Source `onPointerUp`: remove the pointer; below two pointers the pinch
baseline is cleared; at zero pointers a mouse pointer whose total
displacement from the down position stayed under 5 units has its committed
drag reset (the jitter fix); at exactly one remaining pointer panning is
re-engaged from that pointer with drag forced on. -/
noncomputable def onPointerUp (s : GestureState) (e : PEvent) : GestureState :=
  let ap := mapDelete s.activePointers e.pointerId
  let s1 := {s with activePointers := ap}
  let s2 := if ap.length < 2 then {s1 with initialPinchDistance := none} else s1
  if ap.length = 0 then
    if e.pointerType = "mouse" ∧ getDistance s2.dragStartPos ⟨e.clientX, e.clientY⟩ < 5 then
      {s2 with isDragging := false}
    else s2
  else
    match ap with
    | (_, p) :: [] => {s2 with lastPanPosition := p, isDragging := true}
    | _ => s2

/-- Source `handleDomainClickRequest`: a tap-selection is honored only when drag
is not committed and, for non-mouse pointers, the time since pointer-down
is at most 150 ms. -/
noncomputable def handleDomainClickRequest (s : GestureState) (now : ℝ) : Bool :=
  if s.isDragging = true then false
  else if s.lastPointerType ≠ "mouse" ∧ now - s.startDragTime > 150 then false
  else true

/-- The controller's initial state, from the component's initializers:
no active pointers, drag off, zero pan, zoom 1, pinch disabled. -/
def initialGesture : GestureState :=
  { activePointers := [], isDragging := false, lastPanPosition := ⟨0, 0⟩,
    dragStartPos := ⟨0, 0⟩, startDragTime := 0, lastPointerType := "touch",
    initialPinchDistance := none, initialZoomLevel := 1, pan := ⟨0, 0⟩,
    zoomLevel := 1, isPinchEnabled := false }

/-- Source `handleZoomIn`: step the zoom up by 0.2, capped at 2.0. -/
noncomputable def handleZoomIn (z : ℝ) : ℝ := min (z + 0.2) 2.0

/-- Source `handleZoomOut`: step the zoom down by 0.2, floored at 0.6. -/
noncomputable def handleZoomOut (z : ℝ) : ℝ := max (z - 0.2) 0.6

/-- The pinch-move zoom update: scale the zoom captured at pinch start by
the distance ratio and clamp to [0.6, 2.5]. -/
noncomputable def pinchZoomUpdate (z r : ℝ) : ℝ := min (max (z * r) 0.6) 2.5

/-- The navigation effect resets the zoom to 1. -/
def navResetZoom : ℝ := 1

/-- One zoom-affecting operation: zoom-in button, zoom-out button, a pinch
move with a given distance ratio, or the navigation reset. -/
inductive ZoomOp where
  | zin
  | zout
  | pinch (r : ℝ)
  | reset

/-- Apply one zoom operation to the current zoom level. -/
noncomputable def applyZoomOp (z : ℝ) : ZoomOp → ℝ
  | .zin => handleZoomIn z
  | .zout => handleZoomOut z
  | .pinch r => pinchZoomUpdate z r
  | .reset => navResetZoom

/-- Run a sequence of zoom operations from the initial zoom level 1. -/
noncomputable def runZoomOps (ops : List ZoomOp) : ℝ := ops.foldl applyZoomOp 1

/-- Every zoom operation keeps a zoom inside [0.6, 2.5] inside it. -/
theorem applyZoomOp_mem (op : ZoomOp) (z : ℝ) (h1 : 0.6 ≤ z) (h2 : z ≤ 2.5) :
    0.6 ≤ applyZoomOp z op ∧ applyZoomOp z op ≤ 2.5 := by
  cases op with
  | zin =>
    constructor
    · exact le_min (by linarith) (by norm_num)
    · exact le_trans (min_le_right _ _) (by norm_num)
  | zout =>
    constructor
    · exact le_max_right _ _
    · exact max_le (by linarith) (by norm_num)
  | pinch r =>
    constructor
    · exact le_min (le_max_right _ _) (by norm_num)
    · exact min_le_right _ _
  | reset =>
    constructor
    · norm_num [applyZoomOp, navResetZoom]
    · norm_num [applyZoomOp, navResetZoom]

/-- Folding zoom operations keeps the zoom inside [0.6, 2.5]. -/
theorem foldZoomOps_mem (ops : List ZoomOp) :
    ∀ z : ℝ, 0.6 ≤ z → z ≤ 2.5 →
      0.6 ≤ ops.foldl applyZoomOp z ∧ ops.foldl applyZoomOp z ≤ 2.5 := by
  induction ops with
  | nil => exact fun z h1 h2 => ⟨h1, h2⟩
  | cons op rest ih =>
    intro z h1 h2
    obtain ⟨ha, hb⟩ := applyZoomOp_mem op z h1 h2
    simpa [List.foldl_cons] using ih _ ha hb

/-- C10: every sequence of zoom operations (buttons, pinch moves,
navigation reset) started from the initial zoom 1 keeps the zoom in
[0.6, 2.5]; the zoom-in button never yields more than 2.0 and the zoom-out
button never less than 0.6, while a single pinch can reach 2.5. -/
theorem zoomLevel_bounds :
    (∀ ops : List ZoomOp, 0.6 ≤ runZoomOps ops ∧ runZoomOps ops ≤ 2.5) ∧
    (∀ z : ℝ, handleZoomIn z ≤ 2.0) ∧
    (∀ z : ℝ, 0.6 ≤ handleZoomOut z) ∧
    runZoomOps [ZoomOp.pinch 3] = 2.5 := by
  refine ⟨fun ops => foldZoomOps_mem ops 1 (by norm_num) (by norm_num),
    fun z => min_le_right _ _, fun z => le_max_right _ _, ?_⟩
  show applyZoomOp 1 (ZoomOp.pinch 3) = 2.5
  simp only [applyZoomOp, pinchZoomUpdate]
  rw [show max ((1 : ℝ) * 3) 0.6 = 3 by rw [max_eq_left] <;> norm_num]
  rw [min_eq_right]
  norm_num

/-- C9 (amended): a pointer-move for a pointer id that was never registered
by a pointer-down is ignored: the controller's whole state is unchanged
and no error is raised (the transition function is total).  An untracked
pointer-up, by contrast, is processed by the remaining-pointer logic — see
the counterexample. -/
theorem onPointerMove_untracked_ignored (s : GestureState) (e : PEvent)
    (h : mapHas s.activePointers e.pointerId = false) :
    onPointerMove s e = s := by
  unfold onPointerMove
  rw [h]
  simp

theorem onPointerMove_untracked_ignored_witness :
    mapHas initialGesture.activePointers 5 = false ∧
    onPointerMove initialGesture ⟨5, 1, 2, "touch"⟩ = initialGesture :=
  ⟨rfl, onPointerMove_untracked_ignored initialGesture ⟨5, 1, 2, "touch"⟩ rfl⟩

/-- The state after a single touch pointer-down on the initial state. -/
noncomputable def c9state : GestureState := onPointerDown initialGesture ⟨1, 0, 0, "touch"⟩ 1000

/-- C9 (counterexample): with one tracked pointer and drag not committed, a
pointer-up for an id that was never registered is not ignored: it flips the
drag-committed flag to true (the remaining-pointer branch fires), changing
the controller's state. -/
theorem onPointerUp_untracked_changes_state :
    c9state.isDragging = false ∧
    (onPointerUp c9state ⟨2, 0, 0, "touch"⟩).isDragging = true := by
  have hs : c9state =
      { activePointers := [(1, ⟨0, 0⟩)], isDragging := false, lastPanPosition := ⟨0, 0⟩,
        dragStartPos := ⟨0, 0⟩, startDragTime := 1000, lastPointerType := "touch",
        initialPinchDistance := none, initialZoomLevel := 1, pan := ⟨0, 0⟩,
        zoomLevel := 1, isPinchEnabled := false } := by
    simp [c9state, onPointerDown, initialGesture, mapSet]
  rw [hs]
  constructor
  · rfl
  · simp [onPointerUp, mapDelete]

/-- C5: while exactly two pointers are tracked with pinch enabled and a
nonzero captured initial distance, a move of either pointer leaves the pan
offset unchanged and sets the zoom to the zoom captured at pinch start
times the ratio of the current to the initial inter-pointer distance,
clamped to [0.6, 2.5]. -/
theorem onPointerMove_pinch (s : GestureState) (e : PEvent)
    (i1 i2 : ℕ) (p1 p2 : Pt) (d0 : ℝ)
    (hap : s.activePointers = [(i1, p1), (i2, p2)])
    (hne : i1 ≠ i2)
    (hid : e.pointerId = i1 ∨ e.pointerId = i2)
    (hpinch : s.isPinchEnabled = true)
    (hd : s.initialPinchDistance = some d0)
    (hd0 : d0 ≠ 0) :
    (onPointerMove s e).pan = s.pan ∧
    (onPointerMove s e).zoomLevel =
      min (max (s.initialZoomLevel *
        (pairDistance (mapSet s.activePointers e.pointerId ⟨e.clientX, e.clientY⟩) / d0))
        0.6) 2.5 := by
  have hhas : mapHas s.activePointers e.pointerId = true := by
    rcases hid with h | h <;> simp [mapHas, hap, h]
  rcases hid with h | h
  · have hset : mapSet s.activePointers e.pointerId ⟨e.clientX, e.clientY⟩ =
        [(i1, ⟨e.clientX, e.clientY⟩), (i2, p2)] := by
      rw [hap, h]
      simp [mapSet]
    unfold onPointerMove
    rw [hhas]
    simp only [if_true]
    rw [hset, hd]
    simp [hpinch, hd0, pairDistance, hset]
  · have hset : mapSet s.activePointers e.pointerId ⟨e.clientX, e.clientY⟩ =
        [(i1, p1), (i2, ⟨e.clientX, e.clientY⟩)] := by
      rw [hap, h]
      simp [mapSet, hne]
    unfold onPointerMove
    rw [hhas]
    simp only [if_true]
    rw [hset, hd]
    simp [hpinch, hd0, pairDistance, hset]

/-- A concrete pinch-tracking state: pointers 1 and 2 three units apart,
initial distance 3, pinch enabled. -/
def pinchState : GestureState :=
  { activePointers := [(1, ⟨0, 0⟩), (2, ⟨3, 0⟩)], isDragging := false,
    lastPanPosition := ⟨0, 0⟩, dragStartPos := ⟨0, 0⟩, startDragTime := 0,
    lastPointerType := "touch", initialPinchDistance := some 3, initialZoomLevel := 1,
    pan := ⟨7, 8⟩, zoomLevel := 1, isPinchEnabled := true }

theorem onPointerMove_pinch_witness :
    pinchState.activePointers = [(1, ⟨0, 0⟩), (2, ⟨3, 0⟩)] ∧
    (1 : ℕ) ≠ 2 ∧
    ((2 : ℕ) = 1 ∨ (2 : ℕ) = 2) ∧
    pinchState.isPinchEnabled = true ∧
    pinchState.initialPinchDistance = some 3 ∧
    (3 : ℝ) ≠ 0 ∧
    ((onPointerMove pinchState ⟨2, 6, 0, "touch"⟩).pan = pinchState.pan ∧
      (onPointerMove pinchState ⟨2, 6, 0, "touch"⟩).zoomLevel =
        min (max (pinchState.initialZoomLevel *
          (pairDistance (mapSet pinchState.activePointers 2 ⟨6, 0⟩) / 3)) 0.6) 2.5) :=
  ⟨rfl, by decide, Or.inr rfl, rfl, rfl, by norm_num,
    onPointerMove_pinch pinchState ⟨2, 6, 0, "touch"⟩ 1 2 ⟨0, 0⟩ ⟨3, 0⟩ 3 rfl
      (by decide) (Or.inr rfl) rfl rfl (by norm_num)⟩

/-- One pointer event as dispatched to the three handlers (`now` is the
`Date.now()` reading at pointer-down). -/
inductive GEvent where
  | down (e : PEvent) (now : ℝ)
  | move (e : PEvent)
  | up (e : PEvent)

/-- Dispatch one pointer event to its handler. -/
noncomputable def gestureStep (s : GestureState) : GEvent → GestureState
  | .down e now => onPointerDown s e now
  | .move e => onPointerMove s e
  | .up e => onPointerUp s e

/-- Feed a pointer-event sequence through the controller. -/
noncomputable def runGesture (s : GestureState) (es : List GEvent) : GestureState :=
  es.foldl gestureStep s

/-- Distance along a horizontal segment. -/
theorem getDistance_horizontal (x1 x2 y1 y2 : ℝ) (hy : y1 = y2) (hx : x1 ≤ x2) :
    getDistance ⟨x1, y1⟩ ⟨x2, y2⟩ = x2 - x1 := by
  unfold getDistance
  subst hy
  rw [show (x2 - x1) ^ 2 + (y1 - y1) ^ 2 = (x2 - x1) ^ 2 by ring]
  exact Real.sqrt_sq (by linarith)

/-- C6: classifying a single-pointer down/move/up run.  On a mouse, a
3-unit move between down and up is a tap (the drag commit is reset, the
selection is honored) while a 50-unit move stays a drag (selection
suppressed).  On touch, a tap is honored only when drag never committed
(movement stayed within the 10-unit threshold) and at most 150 ms elapsed
since the down: an 80 ms tap is honored, a 300 ms hold is suppressed. -/
theorem gesture_tap_vs_drag :
    handleDomainClickRequest
      (runGesture initialGesture
        [GEvent.down ⟨1, 0, 0, "mouse"⟩ 1000, GEvent.move ⟨1, 3, 0, "mouse"⟩,
          GEvent.up ⟨1, 3, 0, "mouse"⟩]) 1050 = true ∧
    handleDomainClickRequest
      (runGesture initialGesture
        [GEvent.down ⟨1, 0, 0, "mouse"⟩ 1000, GEvent.move ⟨1, 50, 0, "mouse"⟩,
          GEvent.up ⟨1, 50, 0, "mouse"⟩]) 1050 = false ∧
    handleDomainClickRequest
      (runGesture initialGesture
        [GEvent.down ⟨1, 0, 0, "touch"⟩ 1000, GEvent.move ⟨1, 3, 0, "touch"⟩,
          GEvent.up ⟨1, 3, 0, "touch"⟩]) 1080 = true ∧
    handleDomainClickRequest
      (runGesture initialGesture
        [GEvent.down ⟨1, 0, 0, "touch"⟩ 1000, GEvent.up ⟨1, 0, 0, "touch"⟩]) 1300 = false := by
  have hd3 : getDistance ⟨0, 0⟩ ⟨3, 0⟩ = 3 := by
    rw [getDistance_horizontal 0 3 0 0 rfl (by norm_num)]
    norm_num
  have hd50 : getDistance ⟨0, 0⟩ ⟨50, 0⟩ = 50 := by
    rw [getDistance_horizontal 0 50 0 0 rfl (by norm_num)]
    norm_num
  have hd0 : getDistance ⟨0, 0⟩ ⟨0, 0⟩ = 0 := by
    rw [getDistance_horizontal 0 0 0 0 rfl (by norm_num)]
    norm_num
  refine ⟨?_, ?_, ?_, ?_⟩
  · have h1 : onPointerDown initialGesture ⟨1, 0, 0, "mouse"⟩ 1000 =
        { activePointers := [(1, ⟨0, 0⟩)], isDragging := false, lastPanPosition := ⟨0, 0⟩,
          dragStartPos := ⟨0, 0⟩, startDragTime := 1000, lastPointerType := "mouse",
          initialPinchDistance := none, initialZoomLevel := 1, pan := ⟨0, 0⟩,
          zoomLevel := 1, isPinchEnabled := false } := by
      simp [onPointerDown, initialGesture, mapSet]
    have h2 : onPointerMove
        { activePointers := [(1, ⟨0, 0⟩)], isDragging := false, lastPanPosition := ⟨0, 0⟩,
          dragStartPos := ⟨0, 0⟩, startDragTime := 1000, lastPointerType := "mouse",
          initialPinchDistance := none, initialZoomLevel := 1, pan := ⟨0, 0⟩,
          zoomLevel := 1, isPinchEnabled := false } ⟨1, 3, 0, "mouse"⟩ =
        { activePointers := [(1, ⟨3, 0⟩)], isDragging := true, lastPanPosition := ⟨3, 0⟩,
          dragStartPos := ⟨0, 0⟩, startDragTime := 1000, lastPointerType := "mouse",
          initialPinchDistance := none, initialZoomLevel := 1, pan := ⟨0 + (3 - 0), 0 + (0 - 0)⟩,
          zoomLevel := 1, isPinchEnabled := false } := by
      simp [onPointerMove, singleMove, mapHas, mapSet]
    have h3 : onPointerUp
        { activePointers := [(1, ⟨3, 0⟩)], isDragging := true, lastPanPosition := ⟨3, 0⟩,
          dragStartPos := ⟨0, 0⟩, startDragTime := 1000, lastPointerType := "mouse",
          initialPinchDistance := none, initialZoomLevel := 1, pan := ⟨0 + (3 - 0), 0 + (0 - 0)⟩,
          zoomLevel := 1, isPinchEnabled := false } ⟨1, 3, 0, "mouse"⟩ =
        { activePointers := [], isDragging := false, lastPanPosition := ⟨3, 0⟩,
          dragStartPos := ⟨0, 0⟩, startDragTime := 1000, lastPointerType := "mouse",
          initialPinchDistance := none, initialZoomLevel := 1, pan := ⟨0 + (3 - 0), 0 + (0 - 0)⟩,
          zoomLevel := 1, isPinchEnabled := false } := by
      simp [onPointerUp, mapDelete, hd3]
      norm_num
    show handleDomainClickRequest
      (gestureStep (gestureStep (gestureStep initialGesture
        (GEvent.down ⟨1, 0, 0, "mouse"⟩ 1000)) (GEvent.move ⟨1, 3, 0, "mouse"⟩))
        (GEvent.up ⟨1, 3, 0, "mouse"⟩)) 1050 = true
    simp only [gestureStep, h1, h2, h3]
    simp [handleDomainClickRequest]
  · have h1 : onPointerDown initialGesture ⟨1, 0, 0, "mouse"⟩ 1000 =
        { activePointers := [(1, ⟨0, 0⟩)], isDragging := false, lastPanPosition := ⟨0, 0⟩,
          dragStartPos := ⟨0, 0⟩, startDragTime := 1000, lastPointerType := "mouse",
          initialPinchDistance := none, initialZoomLevel := 1, pan := ⟨0, 0⟩,
          zoomLevel := 1, isPinchEnabled := false } := by
      simp [onPointerDown, initialGesture, mapSet]
    have h2 : onPointerMove
        { activePointers := [(1, ⟨0, 0⟩)], isDragging := false, lastPanPosition := ⟨0, 0⟩,
          dragStartPos := ⟨0, 0⟩, startDragTime := 1000, lastPointerType := "mouse",
          initialPinchDistance := none, initialZoomLevel := 1, pan := ⟨0, 0⟩,
          zoomLevel := 1, isPinchEnabled := false } ⟨1, 50, 0, "mouse"⟩ =
        { activePointers := [(1, ⟨50, 0⟩)], isDragging := true, lastPanPosition := ⟨50, 0⟩,
          dragStartPos := ⟨0, 0⟩, startDragTime := 1000, lastPointerType := "mouse",
          initialPinchDistance := none, initialZoomLevel := 1,
          pan := ⟨0 + (50 - 0), 0 + (0 - 0)⟩,
          zoomLevel := 1, isPinchEnabled := false } := by
      simp [onPointerMove, singleMove, mapHas, mapSet]
    have h3 : onPointerUp
        { activePointers := [(1, ⟨50, 0⟩)], isDragging := true, lastPanPosition := ⟨50, 0⟩,
          dragStartPos := ⟨0, 0⟩, startDragTime := 1000, lastPointerType := "mouse",
          initialPinchDistance := none, initialZoomLevel := 1,
          pan := ⟨0 + (50 - 0), 0 + (0 - 0)⟩,
          zoomLevel := 1, isPinchEnabled := false } ⟨1, 50, 0, "mouse"⟩ =
        { activePointers := [], isDragging := true, lastPanPosition := ⟨50, 0⟩,
          dragStartPos := ⟨0, 0⟩, startDragTime := 1000, lastPointerType := "mouse",
          initialPinchDistance := none, initialZoomLevel := 1,
          pan := ⟨0 + (50 - 0), 0 + (0 - 0)⟩,
          zoomLevel := 1, isPinchEnabled := false } := by
      simp [onPointerUp, mapDelete, hd50]
      norm_num
    show handleDomainClickRequest
      (gestureStep (gestureStep (gestureStep initialGesture
        (GEvent.down ⟨1, 0, 0, "mouse"⟩ 1000)) (GEvent.move ⟨1, 50, 0, "mouse"⟩))
        (GEvent.up ⟨1, 50, 0, "mouse"⟩)) 1050 = false
    simp only [gestureStep, h1, h2, h3]
    simp [handleDomainClickRequest]
  · have h1 : onPointerDown initialGesture ⟨1, 0, 0, "touch"⟩ 1000 =
        { activePointers := [(1, ⟨0, 0⟩)], isDragging := false, lastPanPosition := ⟨0, 0⟩,
          dragStartPos := ⟨0, 0⟩, startDragTime := 1000, lastPointerType := "touch",
          initialPinchDistance := none, initialZoomLevel := 1, pan := ⟨0, 0⟩,
          zoomLevel := 1, isPinchEnabled := false } := by
      simp [onPointerDown, initialGesture, mapSet]
    have h2 : onPointerMove
        { activePointers := [(1, ⟨0, 0⟩)], isDragging := false, lastPanPosition := ⟨0, 0⟩,
          dragStartPos := ⟨0, 0⟩, startDragTime := 1000, lastPointerType := "touch",
          initialPinchDistance := none, initialZoomLevel := 1, pan := ⟨0, 0⟩,
          zoomLevel := 1, isPinchEnabled := false } ⟨1, 3, 0, "touch"⟩ =
        { activePointers := [(1, ⟨3, 0⟩)], isDragging := false, lastPanPosition := ⟨0, 0⟩,
          dragStartPos := ⟨0, 0⟩, startDragTime := 1000, lastPointerType := "touch",
          initialPinchDistance := none, initialZoomLevel := 1, pan := ⟨0, 0⟩,
          zoomLevel := 1, isPinchEnabled := false } := by
      simp [onPointerMove, singleMove, mapHas, mapSet, hd3]
      norm_num
    have h3 : onPointerUp
        { activePointers := [(1, ⟨3, 0⟩)], isDragging := false, lastPanPosition := ⟨0, 0⟩,
          dragStartPos := ⟨0, 0⟩, startDragTime := 1000, lastPointerType := "touch",
          initialPinchDistance := none, initialZoomLevel := 1, pan := ⟨0, 0⟩,
          zoomLevel := 1, isPinchEnabled := false } ⟨1, 3, 0, "touch"⟩ =
        { activePointers := [], isDragging := false, lastPanPosition := ⟨0, 0⟩,
          dragStartPos := ⟨0, 0⟩, startDragTime := 1000, lastPointerType := "touch",
          initialPinchDistance := none, initialZoomLevel := 1, pan := ⟨0, 0⟩,
          zoomLevel := 1, isPinchEnabled := false } := by
      simp [onPointerUp, mapDelete]
    show handleDomainClickRequest
      (gestureStep (gestureStep (gestureStep initialGesture
        (GEvent.down ⟨1, 0, 0, "touch"⟩ 1000)) (GEvent.move ⟨1, 3, 0, "touch"⟩))
        (GEvent.up ⟨1, 3, 0, "touch"⟩)) 1080 = true
    simp only [gestureStep, h1, h2, h3]
    simp [handleDomainClickRequest]
    norm_num
  · have h1 : onPointerDown initialGesture ⟨1, 0, 0, "touch"⟩ 1000 =
        { activePointers := [(1, ⟨0, 0⟩)], isDragging := false, lastPanPosition := ⟨0, 0⟩,
          dragStartPos := ⟨0, 0⟩, startDragTime := 1000, lastPointerType := "touch",
          initialPinchDistance := none, initialZoomLevel := 1, pan := ⟨0, 0⟩,
          zoomLevel := 1, isPinchEnabled := false } := by
      simp [onPointerDown, initialGesture, mapSet]
    have h3 : onPointerUp
        { activePointers := [(1, ⟨0, 0⟩)], isDragging := false, lastPanPosition := ⟨0, 0⟩,
          dragStartPos := ⟨0, 0⟩, startDragTime := 1000, lastPointerType := "touch",
          initialPinchDistance := none, initialZoomLevel := 1, pan := ⟨0, 0⟩,
          zoomLevel := 1, isPinchEnabled := false } ⟨1, 0, 0, "touch"⟩ =
        { activePointers := [], isDragging := false, lastPanPosition := ⟨0, 0⟩,
          dragStartPos := ⟨0, 0⟩, startDragTime := 1000, lastPointerType := "touch",
          initialPinchDistance := none, initialZoomLevel := 1, pan := ⟨0, 0⟩,
          zoomLevel := 1, isPinchEnabled := false } := by
      simp [onPointerUp, mapDelete]
    show handleDomainClickRequest
      (gestureStep (gestureStep initialGesture
        (GEvent.down ⟨1, 0, 0, "touch"⟩ 1000)) (GEvent.up ⟨1, 0, 0, "touch"⟩)) 1300 = false
    simp only [gestureStep, h1, h3]
    simp [handleDomainClickRequest]
    norm_num

/-- Modelled from the spec: `calculateSphereSize` lives in
`DomainSphere.tsx`, which is not among the staged source files; per spec
section 4.2.1 the visual size is a monotonic function of display-name
length (longer names render larger bubbles), the exact mapping being a
presentation detail.  The theorems below do not depend on the mapping
beyond monotone positivity. -/
noncomputable def calculateSphereSize (name : String) : ℝ := 10 + name.length

/-- A node as the relaxation loop sees it: the domain it came from plus
its size-derived radius and mutable coordinates. -/
structure LNode where
  dom : Domain
  radius : ℝ
  x : ℝ
  y : ℝ

/-- Placeholder for out-of-range list reads (never hit by the in-range
index pairs the loops generate). -/
def defaultLNode : LNode := ⟨Domain.mk "" "" none none none, 0, 0, 0⟩

/-- The seed for one (index, domain) pair: the radius is
`calculateSphereSize(name) * 0.56`; the coordinates are the cached position
when present, otherwise the space center jittered by the injected random
source (`50 + (rand − 0.5) * 30` per axis, consuming two stream values per
node as the source calls `Math.random()` twice). -/
noncomputable def initNode (rand : ℕ → ℝ) (p : ℕ × Domain) : LNode :=
  { dom := p.2
    radius := calculateSphereSize p.2.name * 0.56
    x := match p.2.position with
      | some q => q.x
      | none => 50 + (rand (2 * p.1) - 0.5) * 30
    y := match p.2.position with
      | some q => q.y
      | none => 50 + (rand (2 * p.1 + 1) - 0.5) * 30 }

/-- The initialization pass over the enumerated domains. -/
noncomputable def initNodes (domains : List Domain) (rand : ℕ → ℝ) : List LNode :=
  domains.enum.map (initNode rand)

/-- The pairwise-separation update for one index pair: when the two nodes
are closer than the sum of their radii plus the 2-unit margin and not
coincident, push each half the overlap apart along the connecting line
(cos/sin of atan2 written as dx/distance and dy/distance, exact for
positive distance). -/
noncomputable def applyPair (ns : List LNode) (j k : ℕ) : List LNode :=
  let n1 := ns.getD j defaultLNode
  let n2 := ns.getD k defaultLNode
  let dx := n2.x - n1.x
  let dy := n2.y - n1.y
  let distance := Real.sqrt (dx * dx + dy * dy)
  let minDistance := n1.radius + n2.radius + 2
  if distance < minDistance ∧ distance > 0 then
    let overlap := minDistance - distance
    let pushX := (overlap / 2) * (dx / distance)
    let pushY := (overlap / 2) * (dy / distance)
    (ns.set j ⟨n1.dom, n1.radius, n1.x - pushX, n1.y - pushY⟩).set k
      ⟨n2.dom, n2.radius, n2.x + pushX, n2.y + pushY⟩
  else ns

/-- The index pairs (j, k) with j < k < n, in the row-major order the
nested loops visit them. -/
def pairIndices (n : ℕ) : List (ℕ × ℕ) :=
  (List.range n).flatMap fun j => ((List.range n).filter (fun k => j < k)).map (fun k => (j, k))

/-- One pairwise-separation sweep over all index pairs, sequentially (each
update reads positions already moved by earlier pairs, as the in-place
loop does). -/
noncomputable def pairPass (ns : List LNode) : List LNode :=
  (pairIndices ns.length).foldl (fun acc p => applyPair acc p.1 p.2) ns

/-- The per-node center pass: pull 1.5 percent of the way to the space
center, then, when the pre-pull distance to center is inside the center
node's exclusion radius plus the node's radius plus the 4-unit margin (and
nonzero), push directly away from center by the overlap. -/
noncomputable def centerStep (centerRadius : ℝ) (n : LNode) : LNode :=
  let dxToCenter := 50 - n.x
  let dyToCenter := 50 - n.y
  let x1 := n.x + dxToCenter * 0.015
  let y1 := n.y + dyToCenter * 0.015
  let distanceFromCenter := Real.sqrt (dxToCenter * dxToCenter + dyToCenter * dyToCenter)
  let minDistanceFromCenter := centerRadius + n.radius + 4
  if distanceFromCenter < minDistanceFromCenter ∧ distanceFromCenter > 0 then
    let overlap := minDistanceFromCenter - distanceFromCenter
    ⟨n.dom, n.radius, x1 - overlap * (dxToCenter / distanceFromCenter),
      y1 - overlap * (dyToCenter / distanceFromCenter)⟩
  else ⟨n.dom, n.radius, x1, y1⟩

/-- One relaxation iteration: the pairwise sweep then the center pass. -/
noncomputable def relaxOnce (centerRadius : ℝ) (ns : List LNode) : List LNode :=
  (pairPass ns).map (centerStep centerRadius)

/-- Source `calculateChaoticLayout`: null children give an empty layout; otherwise
seed the nodes, run the fixed 300-iteration relaxation, and return the
domains annotated with their final positions.  `containerSize` is accepted
and unused, as in the source; `rand` injects the `Math.random()` stream. -/
noncomputable def calculateChaoticLayout (domains : Option (List Domain))
    (containerSize : ℝ) (centerNodeName : String) (rand : ℕ → ℝ) : List Domain :=
  match domains with
  | none => []
  | some ds =>
    let centerRadius := calculateSphereSize centerNodeName * 0.56
    let final := (relaxOnce centerRadius)^[300] (initNodes ds rand)
    final.map fun n => n.dom.withPosition (some ⟨n.x, n.y⟩)

/-- Index pairs are in range and ordered. -/
theorem pairIndices_mem {n : ℕ} {p : ℕ × ℕ} (h : p ∈ pairIndices n) :
    p.1 < n ∧ p.2 < n ∧ p.1 < p.2 := by
  unfold pairIndices at h
  simp only [List.mem_flatMap, List.mem_map, List.mem_filter, List.mem_range] at h
  obtain ⟨j, hj, k, ⟨hk, hjk⟩, rfl⟩ := h
  exact ⟨hj, hk, by simpa using hjk⟩

/-- Every node of the list sits exactly at the space center. -/
def atCenter (ns : List LNode) : Prop := ∀ m ∈ ns, m.x = 50 ∧ m.y = 50

/-- Coincident nodes at the center receive no pairwise push: the distance
is zero, the separation branch is guarded by distance > 0, so the pair
update is the identity. -/
theorem applyPair_atCenter {ns : List LNode} (h : atCenter ns) {j k : ℕ}
    (hj : j < ns.length) (hk : k < ns.length) : applyPair ns j k = ns := by
  unfold applyPair
  rw [List.getD_eq_getElem ns defaultLNode hj, List.getD_eq_getElem ns defaultLNode hk]
  obtain ⟨hjx, hjy⟩ := h (ns[j]) (List.getElem_mem hj)
  obtain ⟨hkx, hky⟩ := h (ns[k]) (List.getElem_mem hk)
  dsimp only
  rw [hjx, hjy, hkx, hky]
  norm_num [Real.sqrt_zero]

/-- The full pairwise sweep is the identity on an all-at-center list. -/
theorem pairPass_atCenter {ns : List LNode} (h : atCenter ns) : pairPass ns = ns := by
  unfold pairPass
  have hgen : ∀ ps : List (ℕ × ℕ), (∀ p ∈ ps, p.1 < ns.length ∧ p.2 < ns.length) →
      ps.foldl (fun acc p => applyPair acc p.1 p.2) ns = ns := by
    intro ps
    induction ps with
    | nil => intro _; rfl
    | cons q qs ih =>
      intro hps
      simp only [List.foldl_cons]
      rw [applyPair_atCenter h (hps q (List.mem_cons_self q qs)).1
        (hps q (List.mem_cons_self q qs)).2]
      exact ih (fun p hp => hps p (List.mem_cons_of_mem q hp))
  exact hgen _ (fun p hp => ⟨(pairIndices_mem hp).1, (pairIndices_mem hp).2.1⟩)

/-- A node at the center is a fixed point of the center pass: the pull is
zero and the exclusion branch is guarded by distance > 0. -/
theorem centerStep_atCenter (cr : ℝ) {m : LNode} (hx : m.x = 50) (hy : m.y = 50) :
    centerStep cr m = m := by
  obtain ⟨dm, rm, xm, ym⟩ := m
  simp only at hx hy
  subst hx hy
  unfold centerStep
  norm_num [Real.sqrt_zero]

/-- A whole relaxation iteration is the identity on an all-at-center
list. -/
theorem relaxOnce_atCenter (cr : ℝ) {ns : List LNode} (h : atCenter ns) :
    relaxOnce cr ns = ns := by
  unfold relaxOnce
  rw [pairPass_atCenter h]
  calc ns.map (centerStep cr)
      = ns.map id := List.map_congr_left
        (fun m hm => centerStep_atCenter cr (h m hm).1 (h m hm).2)
    _ = ns := List.map_id ns

/-- A cached position is used verbatim as the seed. -/
theorem initNode_cached {d : Domain} {q : Pt} (h : d.position = some q)
    (rand : ℕ → ℝ) (k : ℕ) :
    initNode rand (k, d) = ⟨d, calculateSphereSize d.name * 0.56, q.x, q.y⟩ := by
  unfold initNode
  simp only [h]

/-- When every domain carries a cached position at the center, the seeds
ignore the random stream and sit at the center. -/
theorem initNodes_const {ds : List Domain} {rand : ℕ → ℝ}
    (h : ∀ d ∈ ds, d.position = some ⟨50, 50⟩) :
    initNodes ds rand =
      ds.map (fun d => ⟨d, calculateSphereSize d.name * 0.56, 50, 50⟩) := by
  unfold initNodes
  show (List.enumFrom 0 ds).map _ = _
  have hgen : ∀ (l : List Domain) (k : ℕ), (∀ d ∈ l, d.position = some ⟨50, 50⟩) →
      (List.enumFrom k l).map (initNode rand) =
        l.map (fun d => ⟨d, calculateSphereSize d.name * 0.56, 50, 50⟩) := by
    intro l
    induction l with
    | nil => intro k _; rfl
    | cons d l ih =>
      intro k hl
      rw [List.enumFrom_cons]
      simp only [List.map_cons]
      congr 1
      · exact initNode_cached (hl d (List.mem_cons_self d l)) rand k
      · exact ih (k + 1) (fun d' hd' => hl d' (List.mem_cons_of_mem d hd'))
  exact hgen ds 0 h

/-- The 300-iteration relaxation leaves an all-at-center configuration
exactly in place: the pairwise-separation force never acts on coincident
nodes, the central pull is zero at the center and the exclusion push is
guarded by a positive distance. -/
theorem calculateChaoticLayout_atCenter (ds : List Domain) (cs : ℝ) (cn : String)
    (rand : ℕ → ℝ) (h : ∀ d ∈ ds, d.position = some ⟨50, 50⟩) :
    calculateChaoticLayout (some ds) cs cn rand =
      ds.map (fun d => d.withPosition (some ⟨50, 50⟩)) := by
  unfold calculateChaoticLayout
  simp only []
  rw [initNodes_const h]
  have hac : atCenter (ds.map (fun d =>
      (⟨d, calculateSphereSize d.name * 0.56, 50, 50⟩ : LNode))) := by
    intro m hm
    obtain ⟨d, hd, rfl⟩ := List.mem_map.mp hm
    exact ⟨rfl, rfl⟩
  rw [Function.iterate_fixed (relaxOnce_atCenter _ hac) 300]
  rw [List.map_map]
  rfl

/-- C2 (amended): the no-overlap and center-exclusion bounds of the layout
claim fail in the degenerate coincident case the spec itself reserves
(section 4.2.4): children whose cached positions all coincide at the space
center receive no separation force in any of the 300 iterations and every
output position remains exactly (50, 50), so for two or more children the
pairwise distance is 0, below any small tolerance of the radii sum.  The
claimed bounds hold at most for configurations avoiding exact
coincidence. -/
theorem calculateChaoticLayout_coincident_stays (ds : List Domain) (cs : ℝ) (cn : String)
    (rand : ℕ → ℝ) (h : ∀ d ∈ ds, d.position = some ⟨50, 50⟩) :
    ∀ q ∈ calculateChaoticLayout (some ds) cs cn rand, q.position = some ⟨50, 50⟩ := by
  rw [calculateChaoticLayout_atCenter ds cs cn rand h]
  intro q hq
  obtain ⟨d, hd, rfl⟩ := List.mem_map.mp hq
  rw [position_withPosition]

/-- A child cached at the space center. -/
def domACenter : Domain := Domain.mk "A" "A" none (some "ai") (some ⟨50, 50⟩)

/-- A second child cached at the space center. -/
def domBCenter : Domain := Domain.mk "B" "B" none (some "ai") (some ⟨50, 50⟩)

/-- A fixed random stream (unused when every child has a cached
position). -/
noncomputable def randZero : ℕ → ℝ := fun _ => 0

theorem calculateChaoticLayout_coincident_stays_witness :
    (∀ d ∈ [domACenter, domBCenter], d.position = some ⟨50, 50⟩) ∧
    (∀ q ∈ calculateChaoticLayout (some [domACenter, domBCenter]) 500 "Hub" randZero,
      q.position = some ⟨50, 50⟩) := by
  have hd : ∀ d ∈ [domACenter, domBCenter], d.position = some ⟨50, 50⟩ := by
    simp [domACenter, domBCenter, Domain.position]
  exact ⟨hd, calculateChaoticLayout_coincident_stays _ _ _ _ hd⟩

/-- C2 (counterexample): two children of positive radius cached at the
space center come out of the full 300-iteration relaxation still
coincident: both output positions are (50, 50), and their center distance
(zero) is strictly below the sum of their radii even after subtracting the
2-unit margin as tolerance — refuting the unconditional no-overlap
claim. -/
theorem calculateChaoticLayout_overlap_counterexample :
    (calculateChaoticLayout (some [domACenter, domBCenter]) 500 "Hub" randZero).map
        Domain.position = [some ⟨50, 50⟩, some ⟨50, 50⟩] ∧
    getDistance ⟨50, 50⟩ ⟨50, 50⟩ <
      calculateSphereSize "A" * 0.56 + calculateSphereSize "B" * 0.56 - 2 := by
  constructor
  · rw [calculateChaoticLayout_atCenter _ _ _ _
      (by simp [domACenter, domBCenter, Domain.position])]
    simp [domACenter, domBCenter]
  · rw [getDistance_horizontal 50 50 50 50 rfl le_rfl]
    have hA : calculateSphereSize "A" = 11 := by
      unfold calculateSphereSize
      norm_num [show ("A" : String).length = 1 from rfl]
    have hB : calculateSphereSize "B" = 11 := by
      unfold calculateSphereSize
      norm_num [show ("B" : String).length = 1 from rfl]
    rw [hA, hB]
    norm_num

/-- C3 (amended): re-running the layout engine with identical inputs is
not idempotent on cached positions in general (see the counterexample);
what holds is the restriction to relaxation fixed points, of which the
all-at-center family is the concrete instance proved here: when every
child's cached position is exactly the space center (50, 50), the output
equals the cached input, node for node.  (Other exact fixed points exist —
for one child, the distance where the exclusion push cancels the central
pull — so this family is an instance, not a characterization.)  Visible
stability of an already-rendered layout otherwise comes from memoization
(the layout is not re-run when its inputs are unchanged), not from
idempotence of the relaxation. -/
theorem calculateChaoticLayout_fixed_at_center (ds : List Domain) (cs : ℝ)
    (cn : String) (rand : ℕ → ℝ) (h : ∀ d ∈ ds, d.position = some ⟨50, 50⟩) :
    calculateChaoticLayout (some ds) cs cn rand = ds := by
  rw [calculateChaoticLayout_atCenter ds cs cn rand h]
  calc ds.map (fun d => d.withPosition (some ⟨50, 50⟩))
      = ds.map id := by
        apply List.map_congr_left
        intro d hd
        have hp := h d hd
        obtain ⟨i, n, c, s, p⟩ := d
        simp only [Domain.position] at hp
        simp only [Domain.withPosition, id_eq, hp]
    _ = ds := List.map_id ds

theorem calculateChaoticLayout_fixed_at_center_witness :
    (∀ d ∈ [domACenter], d.position = some ⟨50, 50⟩) ∧
    calculateChaoticLayout (some [domACenter]) 500 "Hub" randZero = [domACenter] := by
  have hd : ∀ d ∈ [domACenter], d.position = some ⟨50, 50⟩ := by
    simp [domACenter, Domain.position]
  exact ⟨hd, calculateChaoticLayout_fixed_at_center _ _ _ _ hd⟩

/-- The single child of the idempotence counterexample, cached at
(50, 20): thirty units below the center. -/
def domA5020 : Domain := Domain.mk "A" "A" none (some "ai") (some ⟨50, 20⟩)

/-- The one-node relaxation state on the vertical line through the center,
at distance d below it. -/
noncomputable def c3node (d : ℝ) : LNode :=
  ⟨domA5020, calculateSphereSize "A" * 0.56, 50, 50 - d⟩

/-- One center pass on the single node at distance d ∈ (0, 30] below the
center leaves it on the vertical line at a distance again strictly inside
(0, 30): the 1.5 percent pull shrinks the distance above the exclusion
boundary (16.32 here) and the exclusion push keeps it positive and below
the boundary underneath it. -/
theorem c3_centerStep (d : ℝ) (h1 : 0 < d) (h2 : d ≤ 30) :
    ∃ d', 0 < d' ∧ d' < 30 ∧
      centerStep (calculateSphereSize "B" * 0.56) (c3node d) = c3node d' := by
  have hA : calculateSphereSize "A" = 11 := by
    unfold calculateSphereSize
    norm_num [show ("A" : String).length = 1 from rfl]
  have hB : calculateSphereSize "B" = 11 := by
    unfold calculateSphereSize
    norm_num [show ("B" : String).length = 1 from rfl]
  unfold centerStep c3node
  dsimp only
  rw [show (50 : ℝ) - (50 - d) = d from by ring, show (50 : ℝ) - 50 = 0 from by ring]
  have hsq : Real.sqrt (0 * 0 + d * d) = d := by
    rw [show (0 : ℝ) * 0 + d * d = d ^ 2 by ring]
    exact Real.sqrt_sq h1.le
  rw [hsq, hA, hB]
  by_cases hc : d < 11 * 0.56 + 11 * 0.56 + 4
  · rw [if_pos ⟨hc, h1⟩]
    have hdd : d / d = 1 := div_self (ne_of_gt h1)
    refine ⟨11 * 0.56 + 11 * 0.56 + 4 - 0.015 * d, by linarith, by linarith, ?_⟩
    simp only [LNode.mk.injEq]
    refine ⟨trivial, trivial, ?_, ?_⟩
    · rw [zero_div, mul_zero]
      norm_num
    · rw [hdd, mul_one]
      ring
  · rw [if_neg (fun hh => hc hh.1)]
    refine ⟨0.985 * d, by linarith, by linarith, ?_⟩
    simp only [LNode.mk.injEq]
    refine ⟨trivial, trivial, ?_, ?_⟩
    · norm_num
    · ring

/-- The pairwise sweep is vacuous on a one-node list. -/
theorem pairPass_singleton (n : LNode) : pairPass [n] = [n] := rfl

/-- One full relaxation iteration on the single node keeps the invariant
distance interval. -/
theorem c3_relaxOnce (d : ℝ) (h1 : 0 < d) (h2 : d ≤ 30) :
    ∃ d', 0 < d' ∧ d' < 30 ∧
      relaxOnce (calculateSphereSize "B" * 0.56) [c3node d] = [c3node d'] := by
  obtain ⟨d', ha, hb, hstep⟩ := c3_centerStep d h1 h2
  refine ⟨d', ha, hb, ?_⟩
  unfold relaxOnce
  rw [pairPass_singleton, List.map_singleton, hstep]

/-- Iterating the relaxation preserves the invariant interval. -/
theorem c3_iterate (k : ℕ) : ∀ d : ℝ, 0 < d → d < 30 →
    ∃ d', 0 < d' ∧ d' < 30 ∧
      (relaxOnce (calculateSphereSize "B" * 0.56))^[k] [c3node d] = [c3node d'] := by
  induction k with
  | zero => exact fun d h1 h2 => ⟨d, h1, h2, rfl⟩
  | succ k ih =>
    intro d h1 h2
    obtain ⟨d1, hd1, hd1', hstep⟩ := c3_relaxOnce d h1 h2.le
    obtain ⟨d', h', h'', hit⟩ := ih d1 hd1 hd1'
    exact ⟨d', h', h'', by rw [Function.iterate_succ_apply, hstep, hit]⟩

/-- C3 (counterexample): a single child whose cached position is (50, 20)
does not keep it through a re-run: its distance to the center lies strictly
inside (0, 30) after the first iteration and stays there, so the final y
coordinate is strictly above 20 and the output position differs from the
cached input position — the layout is not idempotent on cached
positions. -/
theorem calculateChaoticLayout_not_idempotent :
    (calculateChaoticLayout (some [domA5020]) 500 "B" randZero).map Domain.position ≠
      [some ⟨50, 20⟩] := by
  have hinit : initNodes [domA5020] randZero = [c3node 30] := by
    show [initNode randZero (0, domA5020)] = [c3node 30]
    rw [initNode_cached (show domA5020.position = some ⟨50, 20⟩ from rfl) randZero 0]
    unfold c3node
    simp only [List.cons.injEq, LNode.mk.injEq, and_true, true_and]
    constructor
    · rfl
    · norm_num
  obtain ⟨d1, hd1, hd1', hstep⟩ := c3_relaxOnce 30 (by norm_num) le_rfl
  obtain ⟨d', h1, h2, hit⟩ := c3_iterate 299 d1 hd1 hd1'
  have hrun : calculateChaoticLayout (some [domA5020]) 500 "B" randZero =
      [(c3node d').dom.withPosition (some ⟨(c3node d').x, (c3node d').y⟩)] := by
    show ((relaxOnce (calculateSphereSize "B" * 0.56))^[300]
        (initNodes [domA5020] randZero)).map
        (fun n => n.dom.withPosition (some ⟨n.x, n.y⟩)) = _
    rw [hinit, show (300 : ℕ) = 299 + 1 from rfl, Function.iterate_succ_apply, hstep, hit]
    rfl
  rw [hrun]
  intro hcontra
  simp only [List.map_cons, List.map_nil, position_withPosition, List.cons.injEq,
    and_true, Option.some.injEq, Pt.mk.injEq, c3node] at hcontra
  have hd20 : (50 : ℝ) - d' = 20 := hcontra.2
  linarith

end Hyle
